import Mathlib

set_option maxHeartbeats 1000000
set_option autoImplicit false

/-!
Shallow embedding of `src/gifler.js`: the frame decoder (class `Decoder`) and
the playback engine (class `Animator`).  The DOM/XHR plumbing (the `Gifler`
entry point and the `Gif` wrapper class) is outside the claims' scope.
Canvas-level effects are modelled as an abstract trace of `SurfaceOp` events;
time is an explicit `Int` parameter standing for `new Date().valueOf()`.
-/

/-- Frame metadata as returned by omggif's `reader.frameInfo(i)`:
sub-region offset and extent, delay (hundredths of a second) and the numeric
disposal code. -/
structure FrameInfo where
  x : Nat
  y : Nat
  width : Nat
  height : Nat
  delay : Nat
  disposal : Nat
  deriving DecidableEq

instance : Inhabited FrameInfo := ⟨⟨0, 0, 0, 0, 0, 0⟩⟩

/-- A decoded frame: the `frameInfo` fields plus the pixel buffer attached by
`Decoder.decodeFrame` (source line 138, `frameInfo.pixels = ...`). -/
structure Frame where
  x : Nat
  y : Nat
  width : Nat
  height : Nat
  delay : Nat
  disposal : Nat
  pixels : List Nat
  deriving DecidableEq

instance : Inhabited Frame := ⟨⟨0, 0, 0, 0, 0, 0, []⟩⟩

/-- The slice of omggif's `GifReader` interface the source uses: overall gif
dimensions, loop count, per-frame metadata, and an oracle `pixelData` standing
for the decoded samples of the external compressed bitstream. -/
structure GifReader where
  width : Nat
  height : Nat
  loopCount : Nat
  frames : List FrameInfo
  pixelData : Nat → Nat → Nat

/-- `reader.numFrames()`. -/
def GifReader.numFrames (r : GifReader) : Nat := r.frames.length

/-- `reader.frameInfo(i)`. -/
def GifReader.frameInfo (r : GifReader) (i : Nat) : FrameInfo :=
  r.frames.getD i default

/-- `generateArray(num)` (source lines 3-6): the list `[0, ..., num-1]`. -/
def generateArray (num : Nat) : List Nat := List.range num

namespace Decoder

/-- Modelled from the spec: `reader.decodeAndBlitFrameRGBA(frameIndex, pixels)`
is provided by the external omggif bitstream parser, which is not under
`src/`; per the spec it "decode[s] its pixels into a caller-supplied buffer of
RGBA samples", i.e. it fills the buffer in place (length preserved), with the
sample values coming from the external bitstream (the reader's `pixelData`
oracle). -/
def decodeAndBlitFrameRGBA (reader : GifReader) (frameIndex : Nat)
    (buf : List Nat) : List Nat :=
  (List.range buf.length).map (reader.pixelData frameIndex)

/-- `Decoder.decodeFrame` (source lines 136-141): fetch the frame metadata,
allocate a `Uint8ClampedArray` of `reader.width * reader.height * 4` zeroed
samples, blit the frame into it, and return the metadata with the pixels
attached. -/
def decodeFrame (reader : GifReader) (frameIndex : Nat) : Frame :=
  let info := reader.frameInfo frameIndex
  let buf : List Nat := List.replicate (reader.width * reader.height * 4) 0
  let px := decodeAndBlitFrameRGBA reader frameIndex buf
  { x := info.x, y := info.y, width := info.width, height := info.height,
    delay := info.delay, disposal := info.disposal, pixels := px }

/-- `Decoder.decodeFramesSync` (source lines 117-121): map `decodeFrame` over
`generateArray(reader.numFrames())`. -/
def decodeFramesSync (reader : GifReader) : List Frame :=
  (generateArray reader.numFrames).map (decodeFrame reader)

/-- The `for` loop of `Decoder.decodeFramesAsync` (source lines 130-132),
pushing `decodeFrame(reader, i)` for `i = start, start+1, ...`; `count` is the
number of iterations left (`frameLength - i`). -/
def decodeFramesAsyncLoop (reader : GifReader) : Nat → Nat → List Frame
  | 0, _ => []
  | count + 1, i => decodeFrame reader i :: decodeFramesAsyncLoop reader count (i + 1)

/-- `Decoder.decodeFramesAsync` (source lines 127-134): build the list of
per-frame results index by index and reassemble them in index order
(`Promise.all` resolves position `i` with the result pushed at position `i`,
regardless of completion order). -/
def decodeFramesAsync (reader : GifReader) : List Frame :=
  decodeFramesAsyncLoop reader reader.numFrames 0

end Decoder

/-- The deferred disposal action stored in `this.disposeFrame`
(source lines 334-347): either `clearRect` over the whole canvas (disposal
code 2) or `putImageData` of a saved snapshot (disposal code 3).  Snapshots
are numbered so the trace records which one is restored. -/
inductive PendingDispose where
  | clearCanvas : PendingDispose
  | putSnapshot : Nat → PendingDispose
  deriving DecidableEq

/-- One observable operation against the canvas / buffer machinery:
`build i` is `createBufferCanvas` for frame `i`, `clear` is the whole-canvas
`clearRect`, `snapshot n` is `getImageData` producing snapshot number `n`,
`restore n` is `putImageData` of snapshot `n`, and `draw i` is the default
`onDrawFrame` blit of frame `i`. -/
inductive SurfaceOp where
  | build : Nat → SurfaceOp
  | clear : SurfaceOp
  | snapshot : Nat → SurfaceOp
  | restore : Nat → SurfaceOp
  | draw : Nat → SurfaceOp
  deriving DecidableEq

/-- The playback-engine state: the fields assigned by the `Animator`
constructor (source lines 145-153) together with the fields assigned later
(`_lastTime` and `_delayCompensation` in `start`, `disposeFrame` in
`onFrame`).  `snapCtr` numbers `getImageData` snapshots for the trace. -/
structure AnimState where
  frames : List Frame
  width : Nat
  height : Nat
  loopCount : Nat
  loops : Nat
  frameIndex : Nat
  running : Bool
  lastTime : Int
  delayComp : Int
  pendingDispose : Option PendingDispose
  snapCtr : Nat
  deriving DecidableEq

namespace Animator

/-- The `Animator` constructor (source lines 145-153). -/
def mkAnimator (reader : GifReader) (frames : List Frame) : AnimState :=
  { frames := frames, width := reader.width, height := reader.height,
    loopCount := reader.loopCount, loops := 0, frameIndex := 0,
    running := false, lastTime := 0, delayComp := 0,
    pendingDispose := none, snapCtr := 0 }

/-- `animator.start()` (source lines 192-198): unconditionally set
`_lastTime` to the current host time, zero `_delayCompensation`, set
`_running`, and schedule a tick with delay `0` (the returned `Int`). -/
def start (now : Int) (s : AnimState) : AnimState × Int :=
  ({ s with lastTime := now, delayComp := 0, running := true }, 0)

/-- `animator.stop()` (source lines 205-208). -/
def stop (s : AnimState) : AnimState :=
  { s with running := false }

/-- `animator.reset()` (source lines 216-220). -/
def reset (s : AnimState) : AnimState :=
  { s with frameIndex := 0, loops := 0 }

/-- `animator._advanceFrame()` (source lines 247-259): increment
`_frameIndex`; when the incremented index reaches the end either stop (a
finite loop count equal to the completed loops) — leaving the incremented,
out-of-range index in place — or wrap to frame 0 and count a loop. -/
def advanceFrame (s : AnimState) : AnimState :=
  if s.frames.length ≤ s.frameIndex + 1 then
    if s.loopCount ≠ 0 ∧ s.loopCount = s.loops then
      stop { s with frameIndex := s.frameIndex + 1 }
    else
      { s with frameIndex := 0, loops := s.loops + 1 }
  else
    { s with frameIndex := s.frameIndex + 1 }

/-- The `while (this._running)` loop of `animator._enqueueNextFrame()`
(source lines 264-290), with the current host time `now` fixed for the whole
synchronous loop body and explicit fuel (the source loop does not terminate
when every remaining delay is zero and the compensation stays positive).
Returns `none` on fuel exhaustion, `some (s, none)` when the loop exits
because `running` is false (nothing scheduled), and `some (s, some d)` when a
tick is scheduled after `d` host time units. -/
def enqueueLoop (now : Int) : Nat → AnimState → Option (AnimState × Option Int)
  | 0, _ => none
  | fuel + 1, s =>
    if s.running then
      let frame := s.frames.getD s.frameIndex default
      let delta := now - s.lastTime
      -- `this._lastTime += delta` sets `_lastTime` to exactly `now`
      let s1 : AnimState :=
        { s with lastTime := now, delayComp := s.delayComp + delta }
      let frameDelay : Int := (frame.delay : Int) * 10
      let actualDelay : Int := frameDelay - s1.delayComp
      let s2 : AnimState := { s1 with delayComp := s1.delayComp - frameDelay }
      if actualDelay < 0 then
        enqueueLoop now fuel (advanceFrame s2)
      else
        some (s2, some actualDelay)
    else
      some (s, none)

/-- `animator._enqueueNextFrame()` (source lines 261-292): advance once, then
run the compensation/skip loop. -/
def enqueueNextFrame (fuel : Nat) (now : Int) (s : AnimState) :
    Option (AnimState × Option Int) :=
  enqueueLoop now fuel (advanceFrame s)

/-- `animator.onFrame(frame, i)` (source lines 329-351): build the buffer
canvas for the frame (unconditionally, line 331), run the pending
`disposeFrame` action if any, compute the next pending action from
`frame.disposal` (for code 3 the `getImageData` snapshot is taken now, before
the draw), and finally draw the frame via `onDrawFrame`.  Returns the updated
engine state and the ordered list of emitted surface operations. -/
def onFrame (s : AnimState) (frame : Frame) (i : Nat) : AnimState × List SurfaceOp :=
  let disposeOps : List SurfaceOp :=
    match s.pendingDispose with
    | some PendingDispose.clearCanvas => [SurfaceOp.clear]
    | some (PendingDispose.putSnapshot n) => [SurfaceOp.restore n]
    | none => []
  if frame.disposal = 2 then
    ({ s with pendingDispose := some PendingDispose.clearCanvas },
      SurfaceOp.build i :: disposeOps ++ [SurfaceOp.draw i])
  else if frame.disposal = 3 then
    ({ s with pendingDispose := some (PendingDispose.putSnapshot s.snapCtr),
              snapCtr := s.snapCtr + 1 },
      SurfaceOp.build i :: disposeOps ++ [SurfaceOp.snapshot s.snapCtr, SurfaceOp.draw i])
  else
    ({ s with pendingDispose := none },
      SurfaceOp.build i :: disposeOps ++ [SurfaceOp.draw i])

/-- `animator._nextFrameRender()` (source lines 235-245): a no-op when not
running; otherwise render the current frame through `onFrame` and run
`_enqueueNextFrame`.  Returns the new state, the surface operations of this
tick, and the delay of the scheduled next tick (`none` when the engine
stopped itself and scheduled nothing). -/
def nextFrameRender (fuel : Nat) (now : Int) (s : AnimState) :
    Option (AnimState × List SurfaceOp × Option Int) :=
  if s.running then
    let frame := s.frames.getD s.frameIndex default
    let r := onFrame s frame s.frameIndex
    match enqueueNextFrame fuel now r.1 with
    | none => none
    | some (s2, sched) => some (s2, r.2, sched)
  else
    some (s, [], none)

/-- Drive the engine through a sequence of tick firings, `times` giving the
host clock value at each firing; stops early when no further tick was
scheduled.  This is the harness for the host scheduler, which fires each
scheduled `setTimeout`/`requestAnimationFrame` callback exactly once. -/
def run (fuel : Nat) : List Int → AnimState → Option (AnimState × List SurfaceOp)
  | [], s => some (s, [])
  | t :: ts, s =>
    match nextFrameRender fuel t s with
    | none => none
    | some (s1, ops, none) => some (s1, ops)
    | some (s1, ops, some _) =>
      match run fuel ts s1 with
      | none => none
      | some (s2, ops2) => some (s2, ops ++ ops2)

/-- Harness: invoke `onFrame` on each `(frame, index)` pair in order,
concatenating the emitted surface operations. -/
def renderSeq : AnimState → List (Frame × Nat) → AnimState × List SurfaceOp
  | s, [] => (s, [])
  | s, (f, i) :: rest =>
    let r := onFrame s f i
    let r2 := renderSeq r.1 rest
    (r2.1, r.2 ++ r2.2)

/-- Number of `draw` operations (invocations of the draw hook) in a trace. -/
def drawCount (ops : List SurfaceOp) : Nat :=
  ops.countP fun op => match op with | SurfaceOp.draw _ => true | _ => false

/-- Number of `build` operations (`createBufferCanvas` calls) in a trace. -/
def buildCount (ops : List SurfaceOp) : Nat :=
  ops.countP fun op => match op with | SurfaceOp.build _ => true | _ => false

/-- Operations that touch the canvas itself (everything except buffer
construction). -/
def isCanvasOp : SurfaceOp → Bool
  | SurfaceOp.build _ => false
  | _ => true

/-- The canvas-operation subtrace. -/
def surfaceTrace (ops : List SurfaceOp) : List SurfaceOp :=
  ops.filter isCanvasOp

/-- The surface operation a stored `disposeFrame` action performs when run. -/
def pendingOp : PendingDispose → SurfaceOp
  | PendingDispose.clearCanvas => SurfaceOp.clear
  | PendingDispose.putSnapshot n => SurfaceOp.restore n

/-- Milliseconds (`delay * 10`) of `count` consecutive frames starting at
index `i`. -/
def sumDelays (frames : List Frame) : Nat → Nat → Int
  | _, 0 => 0
  | i, count + 1 =>
    ((frames.getD i default).delay : Int) * 10 + sumDelays frames (i + 1) count

/-- Number of draws left before a finite-loop-count engine stops itself:
the frames left in the current pass plus one full pass per remaining loop. -/
def remDraws (s : AnimState) : Nat :=
  (s.loopCount - s.loops) * s.frames.length + (s.frames.length - s.frameIndex)

end Animator

/-- All engine states reachable from construction through the public
operations (`start`/`stop`/`reset`) and tick firings; `start` transitions are
restricted to states whose `frameIndex` is in range (i.e. an exhausted,
auto-stopped animation is `reset` before being restarted). -/
inductive ReachableG (r : GifReader) (frames : List Frame) : AnimState → Prop where
  | init : ReachableG r frames (Animator.mkAnimator r frames)
  | startOp (s : AnimState) (now : Int) : ReachableG r frames s →
      s.frameIndex < frames.length → ReachableG r frames (Animator.start now s).1
  | stopOp (s : AnimState) : ReachableG r frames s →
      ReachableG r frames (Animator.stop s)
  | resetOp (s : AnimState) : ReachableG r frames s →
      ReachableG r frames (Animator.reset s)
  | tickOp (s : AnimState) (fuel : Nat) (now : Int) (s2 : AnimState)
      (ops : List SurfaceOp) (sched : Option Int) : ReachableG r frames s →
      Animator.nextFrameRender fuel now s = some (s2, ops, sched) →
      ReachableG r frames s2

/-! Concrete fixtures for witnesses and counterexamples. -/

/-- A bitstream oracle producing all-zero samples. -/
def pxZero : Nat → Nat → Nat := fun _ _ => 0

/-- A 1x1 frame at the origin with the given delay and disposal code. -/
def mkFrame (delay disposal : Nat) : Frame :=
  { x := 0, y := 0, width := 1, height := 1, delay := delay,
    disposal := disposal, pixels := [] }

/-- A 2x2 reader with the given loop count and frame descriptors. -/
def mkReader (lc : Nat) (fs : List FrameInfo) : GifReader :=
  { width := 2, height := 2, loopCount := lc, frames := fs, pixelData := pxZero }

/-- Descriptor of a 1x1 frame at the origin. -/
def smallInfo : FrameInfo :=
  { x := 0, y := 0, width := 1, height := 1, delay := 0, disposal := 0 }

/-- A running engine state whose `start` was never called: used to exhibit
what `start` overwrites. -/
def c4State : AnimState :=
  { Animator.mkAnimator (mkReader 0 []) [] with
      running := true, lastTime := 5, delayComp := 3 }

/-- A running 3-frame engine (delays 1, 1, 2 hundredths) at frame 0 with
fresh timing accumulators. -/
def c2State : AnimState :=
  { Animator.mkAnimator (mkReader 0 []) [mkFrame 1 0, mkFrame 1 0, mkFrame 2 0] with
      running := true }

/-- A just-started 1-frame animation with loop count 1. -/
def oneFrameLoopOnce : AnimState :=
  (Animator.start 0 (Animator.mkAnimator (mkReader 1 []) [mkFrame 1 0])).1

/-- A 1-frame engine state carrying a pending restore-to-background action
and a non-initial playback position. -/
def c10State : AnimState :=
  { Animator.mkAnimator (mkReader 0 []) [mkFrame 1 0] with
      running := true, frameIndex := 3, loops := 2,
      pendingDispose := some PendingDispose.clearCanvas }

/-! Basic observations about the embedded operations. -/

namespace Animator

@[simp]
theorem onFrame_fst_frames (s : AnimState) (f : Frame) (i : Nat) :
    (onFrame s f i).1.frames = s.frames := by
  unfold onFrame
  by_cases h2 : f.disposal = 2 <;> by_cases h3 : f.disposal = 3 <;> simp [h2, h3]

@[simp]
theorem onFrame_fst_frameIndex (s : AnimState) (f : Frame) (i : Nat) :
    (onFrame s f i).1.frameIndex = s.frameIndex := by
  unfold onFrame
  by_cases h2 : f.disposal = 2 <;> by_cases h3 : f.disposal = 3 <;> simp [h2, h3]

@[simp]
theorem onFrame_fst_running (s : AnimState) (f : Frame) (i : Nat) :
    (onFrame s f i).1.running = s.running := by
  unfold onFrame
  by_cases h2 : f.disposal = 2 <;> by_cases h3 : f.disposal = 3 <;> simp [h2, h3]

@[simp]
theorem onFrame_fst_lastTime (s : AnimState) (f : Frame) (i : Nat) :
    (onFrame s f i).1.lastTime = s.lastTime := by
  unfold onFrame
  by_cases h2 : f.disposal = 2 <;> by_cases h3 : f.disposal = 3 <;> simp [h2, h3]

@[simp]
theorem onFrame_fst_delayComp (s : AnimState) (f : Frame) (i : Nat) :
    (onFrame s f i).1.delayComp = s.delayComp := by
  unfold onFrame
  by_cases h2 : f.disposal = 2 <;> by_cases h3 : f.disposal = 3 <;> simp [h2, h3]

@[simp]
theorem onFrame_fst_loops (s : AnimState) (f : Frame) (i : Nat) :
    (onFrame s f i).1.loops = s.loops := by
  unfold onFrame
  by_cases h2 : f.disposal = 2 <;> by_cases h3 : f.disposal = 3 <;> simp [h2, h3]

@[simp]
theorem onFrame_fst_loopCount (s : AnimState) (f : Frame) (i : Nat) :
    (onFrame s f i).1.loopCount = s.loopCount := by
  unfold onFrame
  by_cases h2 : f.disposal = 2 <;> by_cases h3 : f.disposal = 3 <;> simp [h2, h3]

@[simp]
theorem drawCount_nil : drawCount [] = 0 := rfl

@[simp]
theorem drawCount_append (a b : List SurfaceOp) :
    drawCount (a ++ b) = drawCount a + drawCount b :=
  List.countP_append _ _ _

@[simp]
theorem buildCount_nil : buildCount [] = 0 := rfl

@[simp]
theorem buildCount_append (a b : List SurfaceOp) :
    buildCount (a ++ b) = buildCount a + buildCount b :=
  List.countP_append _ _ _

theorem drawCount_onFrame (s : AnimState) (f : Frame) (i : Nat) :
    drawCount (onFrame s f i).2 = 1 := by
  unfold onFrame
  rcases hp : s.pendingDispose with _ | a
  · by_cases h2 : f.disposal = 2 <;> by_cases h3 : f.disposal = 3 <;>
      simp [h2, h3, hp, drawCount, List.countP_cons]
  · cases a <;> by_cases h2 : f.disposal = 2 <;> by_cases h3 : f.disposal = 3 <;>
      simp [h2, h3, hp, drawCount, List.countP_cons]

theorem buildCount_onFrame (s : AnimState) (f : Frame) (i : Nat) :
    buildCount (onFrame s f i).2 = 1 := by
  unfold onFrame
  rcases hp : s.pendingDispose with _ | a
  · by_cases h2 : f.disposal = 2 <;> by_cases h3 : f.disposal = 3 <;>
      simp [h2, h3, hp, buildCount, List.countP_cons]
  · cases a <;> by_cases h2 : f.disposal = 2 <;> by_cases h3 : f.disposal = 3 <;>
      simp [h2, h3, hp, buildCount, List.countP_cons]

theorem draw_mem_onFrame (s : AnimState) (f : Frame) (i : Nat) :
    SurfaceOp.draw i ∈ (onFrame s f i).2 := by
  unfold onFrame
  rcases hp : s.pendingDispose with _ | a
  · by_cases h2 : f.disposal = 2 <;> by_cases h3 : f.disposal = 3 <;> simp [h2, h3, hp]
  · cases a <;> by_cases h2 : f.disposal = 2 <;> by_cases h3 : f.disposal = 3 <;>
      simp [h2, h3, hp]

end Animator

/-! Claim theorems. -/

open Animator Decoder

/-- C9: decoding all frames sequentially (`decodeFramesSync`) and via the
index-reassembled concurrent strategy (`decodeFramesAsync`) produce the same
ordered list of frames for every reader. -/
theorem c9_decode_strategies_agree (reader : GifReader) :
    decodeFramesAsync reader = decodeFramesSync reader := by
  have loopEq : ∀ count i, decodeFramesAsyncLoop reader count i =
      (List.range' i count).map (decodeFrame reader) := by
    intro count
    induction count with
    | zero => intro i; simp [decodeFramesAsyncLoop]
    | succ n ih =>
      intro i
      simp [decodeFramesAsyncLoop, List.range', ih]
  unfold decodeFramesAsync decodeFramesSync generateArray
  rw [loopEq, List.range_eq_range']

/-- C5 counterexample: for a 1x1 frame inside a 2x2 gif, the buffer attached
by `decodeFrame` has length 16 (`reader.width * reader.height * 4`), not
`frame.width * frame.height * 4 = 4`. -/
theorem c5_pixels_length_counterexample :
    ¬ ((decodeFrame (mkReader 0 [smallInfo]) 0).pixels.length =
        (decodeFrame (mkReader 0 [smallInfo]) 0).width *
        (decodeFrame (mkReader 0 [smallInfo]) 0).height * 4) := by
  decide

/-- C5 amended: the pixel buffer attached by the frame decoder always has
length `reader.width * reader.height * 4` — four RGBA samples per pixel of
the overall canvas extent, not of the frame's own sub-region. -/
theorem c5_pixels_length (reader : GifReader) (i : Nat) :
    (decodeFrame reader i).pixels.length = reader.width * reader.height * 4 := by
  unfold decodeFrame decodeAndBlitFrameRGBA
  simp

/-- C4 counterexample: calling `start()` on an already-running engine is not
a no-op — it overwrites `lastTime` (and `delayCompensation`). -/
theorem c4_start_counterexample :
    c4State.running = true ∧
    ¬ ((Animator.start 9 c4State).1.lastTime = c4State.lastTime ∧
       (Animator.start 9 c4State).1.delayComp = c4State.delayComp) := by
  refine ⟨rfl, ?_⟩
  decide

/-- C4 amended: `start()` is not guarded by the running flag; whether or not
the engine is already running it sets `running := true`, re-bases
`lastTickTime` to the current host time, zeroes `delayCompensation`, leaves
the playback position alone, and schedules a render tick with zero delay. -/
theorem c4_start_behavior (s : AnimState) (now : Int) :
    (Animator.start now s).1.running = true ∧
    (Animator.start now s).1.lastTime = now ∧
    (Animator.start now s).1.delayComp = 0 ∧
    (Animator.start now s).1.frames = s.frames ∧
    (Animator.start now s).1.frameIndex = s.frameIndex ∧
    (Animator.start now s).1.loops = s.loops ∧
    (Animator.start now s).1.pendingDispose = s.pendingDispose ∧
    (Animator.start now s).2 = 0 :=
  ⟨rfl, rfl, rfl, rfl, rfl, rfl, rfl, rfl⟩

/-- C7 counterexample: the `Animator` constructor accepts an empty frame
sequence — it yields an animator whose frame list has length 0, so a
FrameSet is not "only ever constructed with N >= 1 frames" and no
`EmptySequenceError` is raised. -/
theorem c7_empty_counterexample :
    ¬ (1 ≤ (Animator.mkAnimator (mkReader 0 []) []).frames.length) := by
  decide

/-- C7 amended: construction performs no validation and cannot fail: for any
decoded frame list (including the empty one) the constructor returns an
animator holding exactly the given frames, with `frameIndex = 0`,
`loops = 0`, `running = false`, and the reader's dimensions and loop count. -/
theorem c7_constructor_total (r : GifReader) (frames : List Frame) :
    (Animator.mkAnimator r frames).frames = frames ∧
    (Animator.mkAnimator r frames).frameIndex = 0 ∧
    (Animator.mkAnimator r frames).loops = 0 ∧
    (Animator.mkAnimator r frames).running = false ∧
    (Animator.mkAnimator r frames).width = r.width ∧
    (Animator.mkAnimator r frames).height = r.height ∧
    (Animator.mkAnimator r frames).loopCount = r.loopCount :=
  ⟨rfl, rfl, rfl, rfl, rfl, rfl, rfl⟩

/-- C6 counterexample: drawing the same frame twice through the default
`onFrame` path builds its buffer canvas twice — the handle is not built "at
most once per Frame". -/
theorem c6_buffer_counterexample :
    ¬ (buildCount (renderSeq (Animator.mkAnimator (mkReader 0 []) [mkFrame 1 0])
        [(mkFrame 1 0, 0), (mkFrame 1 0, 0)]).2 ≤ 1) := by
  decide

/-- C6 amended: the default `onFrame` rebuilds the renderable handle from the
frame's pixels on every draw — one `createBufferCanvas` call per `onFrame`
invocation, with no caching across later draws of the same frame. -/
theorem c6_buffer_rebuilt_every_draw (s : AnimState) (pairs : List (Frame × Nat)) :
    buildCount (renderSeq s pairs).2 = pairs.length := by
  induction pairs generalizing s with
  | nil => rfl
  | cons p rest ih =>
    obtain ⟨f, i⟩ := p
    simp [renderSeq, buildCount_onFrame, ih]
    omega

/-- C10: `reset()` changes only `frameIndex` (to 0) and the loop counter (to
0), leaving `running`, the timing accumulators and the pending disposal
action untouched; a disposal action that was pending at reset time is still
applied (as the canvas operation right after the buffer build and before the
draw) when frame 0 is next rendered. -/
theorem c10_reset_effect (s : AnimState) (a : PendingDispose) (f : Frame)
    (ha : s.pendingDispose = some a) :
    (Animator.reset s).frameIndex = 0 ∧
    (Animator.reset s).loops = 0 ∧
    (Animator.reset s).running = s.running ∧
    (Animator.reset s).lastTime = s.lastTime ∧
    (Animator.reset s).delayComp = s.delayComp ∧
    (Animator.reset s).pendingDispose = s.pendingDispose ∧
    (Animator.reset s).frames = s.frames ∧
    ∃ rest, (onFrame (Animator.reset s) f 0).2 =
        SurfaceOp.build 0 :: pendingOp a :: rest ∧ SurfaceOp.draw 0 ∈ rest := by
  refine ⟨rfl, rfl, rfl, rfl, rfl, rfl, rfl, ?_⟩
  have hra : (Animator.reset s).pendingDispose = some a := ha
  unfold onFrame
  cases a <;> by_cases h2 : f.disposal = 2 <;> by_cases h3 : f.disposal = 3 <;>
    simp [h2, h3, hra, pendingOp]

/-- C10 witness at a concrete state with a pending restore-to-background. -/
theorem c10_reset_effect_witness :
    (Animator.reset c10State).frameIndex = 0 ∧
    (Animator.reset c10State).loops = 0 ∧
    (Animator.reset c10State).running = c10State.running ∧
    (Animator.reset c10State).lastTime = c10State.lastTime ∧
    (Animator.reset c10State).delayComp = c10State.delayComp ∧
    (Animator.reset c10State).pendingDispose = c10State.pendingDispose ∧
    (Animator.reset c10State).frames = c10State.frames ∧
    ∃ rest, (onFrame (Animator.reset c10State) (mkFrame 1 0) 0).2 =
        SurfaceOp.build 0 :: pendingOp PendingDispose.clearCanvas :: rest ∧
        SurfaceOp.draw 0 ∈ rest :=
  c10_reset_effect c10State PendingDispose.clearCanvas (mkFrame 1 0) rfl

/-- C3: for a 2-frame set whose frame 0 uses disposal code 3
(restore-to-previous) and whose frame 1 uses a non-restoring code, rendering
frames [0,1,0,1] performs, on the canvas: snapshot, draw(f0), restore of that
snapshot, draw(f1), a fresh snapshot, draw(f0), restore of the fresh
snapshot, draw(f1) — every pending restore runs before the next frame's draw
and every snapshot is taken before its own frame draws. -/
theorem c3_disposal_trace (f0 f1 : Frame) (s : AnimState)
    (h0 : f0.disposal = 3) (h1 : f1.disposal ≠ 2) (h1' : f1.disposal ≠ 3)
    (hp : s.pendingDispose = none) (hc : s.snapCtr = 0) :
    surfaceTrace (renderSeq s [(f0, 0), (f1, 1), (f0, 0), (f1, 1)]).2 =
      [SurfaceOp.snapshot 0, SurfaceOp.draw 0, SurfaceOp.restore 0, SurfaceOp.draw 1,
       SurfaceOp.snapshot 1, SurfaceOp.draw 0, SurfaceOp.restore 1, SurfaceOp.draw 1] := by
  simp [renderSeq, onFrame, h0, h1, h1', hp, hc, surfaceTrace, isCanvasOp, List.filter]

/-- C3 witness on concrete frames. -/
theorem c3_disposal_trace_witness :
    surfaceTrace (renderSeq (Animator.mkAnimator (mkReader 0 []) [mkFrame 1 3, mkFrame 1 0])
        [(mkFrame 1 3, 0), (mkFrame 1 0, 1), (mkFrame 1 3, 0), (mkFrame 1 0, 1)]).2 =
      [SurfaceOp.snapshot 0, SurfaceOp.draw 0, SurfaceOp.restore 0, SurfaceOp.draw 1,
       SurfaceOp.snapshot 1, SurfaceOp.draw 0, SurfaceOp.restore 1, SurfaceOp.draw 1] :=
  c3_disposal_trace (mkFrame 1 3) (mkFrame 1 0)
    (Animator.mkAnimator (mkReader 0 []) [mkFrame 1 3, mkFrame 1 0])
    rfl (by decide) (by decide) rfl rfl

namespace Animator

theorem advanceFrame_of_lt (s : AnimState) (h : s.frameIndex + 1 < s.frames.length) :
    advanceFrame s = { s with frameIndex := s.frameIndex + 1 } := by
  unfold advanceFrame
  rw [if_neg (by omega)]

theorem advanceFrame_wrap (s : AnimState) (h : s.frames.length ≤ s.frameIndex + 1)
    (h2 : ¬(s.loopCount ≠ 0 ∧ s.loopCount = s.loops)) :
    advanceFrame s = { s with frameIndex := 0, loops := s.loops + 1 } := by
  unfold advanceFrame
  rw [if_pos h, if_neg h2]

theorem advanceFrame_stop (s : AnimState) (h : s.frames.length ≤ s.frameIndex + 1)
    (h2 : s.loopCount ≠ 0 ∧ s.loopCount = s.loops) :
    advanceFrame s = stop { s with frameIndex := s.frameIndex + 1 } := by
  unfold advanceFrame
  rw [if_pos h, if_pos h2]

theorem sumDelays_nonneg (frames : List Frame) :
    ∀ (count i : Nat), 0 ≤ sumDelays frames i count := by
  intro count
  induction count with
  | zero => intro i; exact le_refl 0
  | succ k ih =>
    intro i
    have h1 : (0 : Int) ≤ ((frames.getD i default).delay : Int) * 10 := by positivity
    have h2 := ih (i + 1)
    unfold sumDelays
    omega

theorem enqueueLoop_sched_nonneg :
    ∀ (fuel : Nat) (now : Int) (s s2 : AnimState) (d : Int),
      enqueueLoop now fuel s = some (s2, some d) → 0 ≤ d := by
  intro fuel
  induction fuel with
  | zero =>
    intro now s s2 d h
    simp [enqueueLoop] at h
  | succ k ih =>
    intro now s s2 d h
    unfold enqueueLoop at h
    by_cases hr : s.running
    · rw [if_pos hr] at h
      dsimp only at h
      split at h
      · exact ih now _ s2 d h
      · rename_i hge
        simp only [Option.some.injEq, Prod.mk.injEq] at h
        obtain ⟨-, h2⟩ := h
        omega
    · rw [if_neg hr] at h
      simp at h

end Animator

namespace Animator

theorem enqueueLoop_skip (frames : List Frame) :
    ∀ (m : Nat) (s : AnimState) (now c : Int),
      s.frames = frames → s.running = true →
      s.delayComp + (now - s.lastTime) = c →
      s.frameIndex + m < frames.length →
      sumDelays frames s.frameIndex m < c →
      c ≤ sumDelays frames s.frameIndex (m + 1) →
      ∃ s2 : AnimState,
        enqueueLoop now (m + 1) s =
          some (s2, some (sumDelays frames s.frameIndex (m + 1) - c)) ∧
        s2.frameIndex = s.frameIndex + m ∧ s2.running = true ∧ s2.frames = frames ∧
        s2.lastTime = now ∧ s2.pendingDispose = s.pendingDispose ∧
        s2.snapCtr = s.snapCtr ∧ s2.loops = s.loops := by
  intro m
  induction m with
  | zero =>
    intro s now c hf hr hc hlen hlow hhigh
    subst hf
    have hdelay : sumDelays s.frames s.frameIndex (0 + 1) =
        ((s.frames.getD s.frameIndex default).delay : Int) * 10 := by
      show ((s.frames.getD s.frameIndex default).delay : Int) * 10 +
        sumDelays s.frames (s.frameIndex + 1) 0 = _
      show ((s.frames.getD s.frameIndex default).delay : Int) * 10 + 0 = _
      ring
    rw [hdelay] at hhigh
    unfold enqueueLoop
    rw [if_pos hr]
    dsimp only
    rw [hc]
    rw [if_neg (by omega)]
    rw [hdelay]
    exact ⟨{ s with lastTime := now,
                    delayComp := c - ((s.frames.getD s.frameIndex default).delay : Int) * 10 },
           rfl, by simp, hr, rfl, rfl, rfl, rfl, rfl⟩
  | succ k ih =>
    intro s now c hf hr hc hlen hlow hhigh
    subst hf
    have hdelay : sumDelays s.frames s.frameIndex (k + 1 + 1) =
        ((s.frames.getD s.frameIndex default).delay : Int) * 10 +
          sumDelays s.frames (s.frameIndex + 1) (k + 1) := rfl
    have hrec : sumDelays s.frames s.frameIndex (k + 1) =
        ((s.frames.getD s.frameIndex default).delay : Int) * 10 +
          sumDelays s.frames (s.frameIndex + 1) k := rfl
    have hnn := sumDelays_nonneg s.frames k (s.frameIndex + 1)
    rw [hrec] at hlow
    rw [hdelay] at hhigh
    unfold enqueueLoop
    rw [if_pos hr]
    dsimp only
    rw [hc]
    rw [if_pos (by omega)]
    have hadv : advanceFrame
        { s with lastTime := now,
                 delayComp := c - ((s.frames.getD s.frameIndex default).delay : Int) * 10 } =
        { s with lastTime := now,
                 delayComp := c - ((s.frames.getD s.frameIndex default).delay : Int) * 10,
                 frameIndex := s.frameIndex + 1 } := by
      apply advanceFrame_of_lt
      dsimp only
      omega
    rw [hadv]
    obtain ⟨s2, heq, hfi2, hr2, hf2, hl2, hp2, hsc2, hlp2⟩ :=
      ih { s with lastTime := now,
                  delayComp := c - ((s.frames.getD s.frameIndex default).delay : Int) * 10,
                  frameIndex := s.frameIndex + 1 }
        now (c - ((s.frames.getD s.frameIndex default).delay : Int) * 10)
        rfl hr (by dsimp only; ring) (by dsimp only; omega)
        (by dsimp only; omega) (by dsimp only; omega)
    refine ⟨s2, ?_, by dsimp only at hfi2; omega, hr2, hf2, hl2, hp2, hsc2, hlp2⟩
    rw [heq]
    have harith : sumDelays s.frames (s.frameIndex + 1) (k + 1) -
        (c - ((s.frames.getD s.frameIndex default).delay : Int) * 10) =
        sumDelays s.frames s.frameIndex (k + 1 + 1) - c := by
      rw [hdelay]
      ring
    rw [harith]

end Animator

/-- C2: while running, if the clock at a tick has jumped past the scheduled
point by more than the sum of the next `m` frames' delays (but not more than
`m + 1` of them), the advance-and-delay procedure skips exactly those `m`
frames — emitting no surface operations and touching no disposal state, so no
draw hook runs for them — lands on frame `frameIndex + m + 1`, schedules the
next tick after the remaining (non-negative) difference, and that next tick
draws exactly the landed frame; moreover every delay ever handed to the
scheduler by the procedure is non-negative. -/
theorem c2_frame_skip (s : AnimState) (now : Int) (m : Nat)
    (hr : s.running = true)
    (hlen : s.frameIndex + m + 1 < s.frames.length)
    (hlow : sumDelays s.frames (s.frameIndex + 1) m <
      s.delayComp + (now - s.lastTime))
    (hhigh : s.delayComp + (now - s.lastTime) ≤
      sumDelays s.frames (s.frameIndex + 1) (m + 1)) :
    ∃ s2 : AnimState,
      enqueueNextFrame (m + 1) now s =
        some (s2, some (sumDelays s.frames (s.frameIndex + 1) (m + 1) -
          (s.delayComp + (now - s.lastTime)))) ∧
      s2.frameIndex = s.frameIndex + m + 1 ∧
      s2.running = true ∧
      s2.pendingDispose = s.pendingDispose ∧
      s2.snapCtr = s.snapCtr ∧
      0 ≤ sumDelays s.frames (s.frameIndex + 1) (m + 1) -
        (s.delayComp + (now - s.lastTime)) ∧
      (∀ (fuel2 : Nat) (now2 : Int) (t : AnimState) (ops : List SurfaceOp)
          (sched : Option Int),
        nextFrameRender fuel2 now2 s2 = some (t, ops, sched) →
          SurfaceOp.draw (s.frameIndex + m + 1) ∈ ops) ∧
      (∀ (fuel2 : Nat) (now2 : Int) (t t2 : AnimState) (d2 : Int),
        enqueueNextFrame fuel2 now2 t = some (t2, some d2) → 0 ≤ d2) := by
  unfold enqueueNextFrame
  rw [advanceFrame_of_lt s (by omega)]
  obtain ⟨s2, heq, hfi2, hr2, hf2, hl2, hp2, hsc2, hlp2⟩ :=
    enqueueLoop_skip s.frames m { s with frameIndex := s.frameIndex + 1 } now
      (s.delayComp + (now - s.lastTime)) rfl hr rfl (by dsimp only; omega)
      (by dsimp only; exact hlow) (by dsimp only; exact hhigh)
  dsimp only at hfi2 hp2 hsc2
  refine ⟨s2, heq, by omega, hr2, hp2, hsc2, by omega, ?_, ?_⟩
  · intro fuel2 now2 t ops sched h
    unfold nextFrameRender at h
    rw [if_pos hr2] at h
    dsimp only at h
    cases henq : enqueueNextFrame fuel2 now2
        (onFrame s2 (s2.frames.getD s2.frameIndex default) s2.frameIndex).1 with
    | none =>
      rw [henq] at h
      simp at h
    | some p =>
      rw [henq] at h
      simp only [Option.some.injEq, Prod.mk.injEq] at h
      obtain ⟨-, h2, -⟩ := h
      rw [← h2]
      have hidx : s.frameIndex + m + 1 = s2.frameIndex := by omega
      rw [hidx]
      exact draw_mem_onFrame s2 _ _
  · intro fuel2 now2 t t2 d2 h
    exact enqueueLoop_sched_nonneg fuel2 now2 (advanceFrame t) t2 d2 h

/-- C2 witness: a running 3-frame engine (delays 10ms, 10ms, 20ms) whose
clock jumped 15ms past the last tick skips exactly one frame and schedules
the following one. -/
theorem c2_frame_skip_witness :
    c2State.running = true ∧
    c2State.frameIndex + 1 + 1 < c2State.frames.length ∧
    sumDelays c2State.frames (c2State.frameIndex + 1) 1 <
      c2State.delayComp + (15 - c2State.lastTime) ∧
    c2State.delayComp + (15 - c2State.lastTime) ≤
      sumDelays c2State.frames (c2State.frameIndex + 1) (1 + 1) ∧
    (∃ s2 : AnimState,
      enqueueNextFrame (1 + 1) 15 c2State =
        some (s2, some (sumDelays c2State.frames (c2State.frameIndex + 1) (1 + 1) -
          (c2State.delayComp + (15 - c2State.lastTime)))) ∧
      s2.frameIndex = c2State.frameIndex + 1 + 1 ∧
      s2.running = true ∧
      s2.pendingDispose = c2State.pendingDispose ∧
      s2.snapCtr = c2State.snapCtr ∧
      0 ≤ sumDelays c2State.frames (c2State.frameIndex + 1) (1 + 1) -
        (c2State.delayComp + (15 - c2State.lastTime)) ∧
      (∀ (fuel2 : Nat) (now2 : Int) (t : AnimState) (ops : List SurfaceOp)
          (sched : Option Int),
        nextFrameRender fuel2 now2 s2 = some (t, ops, sched) →
          SurfaceOp.draw (c2State.frameIndex + 1 + 1) ∈ ops) ∧
      (∀ (fuel2 : Nat) (now2 : Int) (t t2 : AnimState) (d2 : Int),
        enqueueNextFrame fuel2 now2 t = some (t2, some d2) → 0 ≤ d2)) :=
  ⟨rfl, by decide, by decide, by decide,
   c2_frame_skip c2State 15 1 rfl (by decide) (by decide) (by decide)⟩

namespace Animator

@[simp]
theorem advanceFrame_frames (s : AnimState) : (advanceFrame s).frames = s.frames := by
  unfold advanceFrame
  split
  · split <;> rfl
  · rfl

theorem advanceFrame_inv (s : AnimState) (hN : 1 ≤ s.frames.length)
    (hfi : s.frameIndex < s.frames.length) :
    (advanceFrame s).frames = s.frames ∧
    (advanceFrame s).frameIndex ≤ s.frames.length ∧
    ((advanceFrame s).running = true → (advanceFrame s).frameIndex < s.frames.length) := by
  unfold advanceFrame
  split
  · split
    · refine ⟨rfl, by dsimp only [stop]; omega, ?_⟩
      intro h
      simp [stop] at h
    · refine ⟨rfl, ?_, fun _ => ?_⟩ <;> dsimp only <;> omega
  · rename_i hlt
    refine ⟨rfl, ?_, fun _ => ?_⟩ <;> dsimp only <;> omega

theorem enqueueLoop_inv :
    ∀ (fuel : Nat) (now : Int) (s s2 : AnimState) (sched : Option Int),
      enqueueLoop now fuel s = some (s2, sched) →
      1 ≤ s.frames.length →
      s.frameIndex ≤ s.frames.length →
      (s.running = true → s.frameIndex < s.frames.length) →
      s2.frames = s.frames ∧ s2.frameIndex ≤ s.frames.length ∧
        (s2.running = true → s2.frameIndex < s.frames.length) := by
  intro fuel
  induction fuel with
  | zero =>
    intro now s s2 sched h
    simp [enqueueLoop] at h
  | succ k ih =>
    intro now s s2 sched h hN hle himp
    unfold enqueueLoop at h
    by_cases hr : s.running
    · rw [if_pos hr] at h
      dsimp only at h
      split at h
      · -- skip branch: recurse through advanceFrame
        have hfi : s.frameIndex < s.frames.length := himp hr
        have hmid := advanceFrame_inv
          { s with lastTime := now,
                   delayComp := s.delayComp + (now - s.lastTime) -
                     ((s.frames.getD s.frameIndex default).delay : Int) * 10 }
          hN hfi
        obtain ⟨-, hmle, hmimp⟩ := hmid
        obtain ⟨h1, h2, h3⟩ := ih now _ s2 sched h
          (by rw [advanceFrame_frames]; exact hN)
          (by rw [advanceFrame_frames]; exact hmle)
          (fun hrun => by rw [advanceFrame_frames]; exact hmimp hrun)
        rw [advanceFrame_frames] at h1 h2 h3
        exact ⟨h1, h2, h3⟩
      · simp only [Option.some.injEq, Prod.mk.injEq] at h
        obtain ⟨h1, -⟩ := h
        subst h1
        exact ⟨rfl, by dsimp only; omega, fun _ => by dsimp only; exact himp hr⟩
    · rw [if_neg hr] at h
      simp only [Option.some.injEq, Prod.mk.injEq] at h
      obtain ⟨h1, -⟩ := h
      subst h1
      exact ⟨rfl, hle, himp⟩

theorem enqueueNextFrame_inv (fuel : Nat) (now : Int) (s s2 : AnimState)
    (sched : Option Int) (h : enqueueNextFrame fuel now s = some (s2, sched))
    (hN : 1 ≤ s.frames.length) (hfi : s.frameIndex < s.frames.length) :
    s2.frames = s.frames ∧ s2.frameIndex ≤ s.frames.length ∧
      (s2.running = true → s2.frameIndex < s.frames.length) := by
  unfold enqueueNextFrame at h
  obtain ⟨-, hale, haimp⟩ := advanceFrame_inv s hN hfi
  obtain ⟨h1, h2, h3⟩ := enqueueLoop_inv fuel now (advanceFrame s) s2 sched h
    (by rw [advanceFrame_frames]; exact hN)
    (by rw [advanceFrame_frames]; exact hale)
    (fun hrun => by rw [advanceFrame_frames]; exact haimp hrun)
  rw [advanceFrame_frames] at h1 h2 h3
  exact ⟨h1, h2, h3⟩

end Animator

/-- C8 counterexample: a 1-frame animation with loop count 1, started and
ticked twice under a frozen clock, stops itself with `frameIndex = 1 = N`,
violating `frameIndex < N` after the automatic stop. -/
theorem c8_frameIndex_counterexample :
    (run 1 [0, 0] oneFrameLoopOnce).map (fun p => p.1.frameIndex) = some 1 ∧
    (run 1 [0, 0] oneFrameLoopOnce).map (fun p => p.1.frames.length) = some 1 ∧
    ¬ (1 < 1) :=
  ⟨by decide, by decide, by decide⟩

/-- C8 amended: in every state reachable through start/stop/reset calls and
render ticks — provided `start` is only invoked while `frameIndex` is in
range, i.e. an exhausted animation is `reset` before restarting — the
invariant weakens to `0 ≤ frameIndex ≤ N`: `frameIndex < N` holds whenever
the engine is running, and `frameIndex = N` is reached exactly at the
automatic stop of a finite loop count. -/
theorem c8_frameIndex_invariant (r : GifReader) (frames : List Frame)
    (hN : 1 ≤ frames.length) (s : AnimState) (h : ReachableG r frames s) :
    s.frames = frames ∧ s.frameIndex ≤ frames.length ∧
      (s.running = true → s.frameIndex < frames.length) := by
  induction h with
  | init =>
    refine ⟨rfl, Nat.zero_le _, ?_⟩
    intro hrun
    simp [Animator.mkAnimator] at hrun
  | startOp s now hre hguard ih =>
    obtain ⟨hf, hle, -⟩ := ih
    exact ⟨hf, hle, fun _ => hguard⟩
  | stopOp s hre ih =>
    obtain ⟨hf, hle, himp⟩ := ih
    refine ⟨hf, hle, ?_⟩
    intro hrun
    simp [Animator.stop] at hrun
  | resetOp s hre ih =>
    obtain ⟨hf, hle, himp⟩ := ih
    exact ⟨hf, Nat.zero_le _, fun _ => by dsimp only [Animator.reset]; omega⟩
  | tickOp s fuel now s2 ops sched hre heq ih =>
    obtain ⟨hf, hle, himp⟩ := ih
    unfold Animator.nextFrameRender at heq
    by_cases hr : s.running
    · rw [if_pos hr] at heq
      dsimp only at heq
      cases henq : Animator.enqueueNextFrame fuel now
          (Animator.onFrame s (s.frames.getD s.frameIndex default) s.frameIndex).1 with
      | none =>
        rw [henq] at heq
        simp at heq
      | some p =>
        rw [henq] at heq
        simp only [Option.some.injEq, Prod.mk.injEq] at heq
        obtain ⟨h1, -⟩ := heq
        subst h1
        obtain ⟨g1, g2, g3⟩ := Animator.enqueueNextFrame_inv fuel now _ p.1 p.2 henq
          (by simp [hf]; omega) (by simp [hf]; exact himp hr)
        simp only [Animator.onFrame_fst_frames] at g1 g2 g3
        rw [hf] at g1 g2 g3
        exact ⟨g1, g2, g3⟩
    · rw [if_neg hr] at heq
      simp only [Option.some.injEq, Prod.mk.injEq] at heq
      obtain ⟨h1, -⟩ := heq
      subst h1
      exact ⟨hf, hle, himp⟩

/-- C8 witness: the invariant at the freshly constructed 1-frame animator. -/
theorem c8_frameIndex_invariant_witness :
    (Animator.mkAnimator (mkReader 1 []) [mkFrame 1 0]).frames = [mkFrame 1 0] ∧
    (Animator.mkAnimator (mkReader 1 []) [mkFrame 1 0]).frameIndex ≤
      ([mkFrame 1 0] : List Frame).length ∧
    ((Animator.mkAnimator (mkReader 1 []) [mkFrame 1 0]).running = true →
      (Animator.mkAnimator (mkReader 1 []) [mkFrame 1 0]).frameIndex <
        ([mkFrame 1 0] : List Frame).length) :=
  c8_frameIndex_invariant (mkReader 1 []) [mkFrame 1 0] (by decide) _ ReachableG.init

namespace Animator

theorem enqueueNextFrame_frozen_stop (t : AnimState) (fuel : Nat) (now : Int)
    (hfuel : 1 ≤ fuel)
    (hend : t.frames.length ≤ t.frameIndex + 1)
    (hsc : t.loopCount ≠ 0 ∧ t.loopCount = t.loops) :
    enqueueNextFrame fuel now t =
      some (stop { t with frameIndex := t.frameIndex + 1 }, none) := by
  unfold enqueueNextFrame
  rw [advanceFrame_stop t hend hsc]
  cases fuel with
  | zero => exact absurd hfuel (by omega)
  | succ k =>
    unfold enqueueLoop
    rw [if_neg (by simp [stop])]

theorem enqueueNextFrame_frozen_go (t : AnimState) (fuel : Nat)
    (hfuel : 1 ≤ fuel) (hr : t.running = true) (hlt : t.lastTime = 0)
    (hdc : t.delayComp ≤ 0)
    (hnostop : ¬(t.frames.length ≤ t.frameIndex + 1 ∧
      t.loopCount ≠ 0 ∧ t.loopCount = t.loops)) :
    ∃ (t2 : AnimState) (d : Int), enqueueNextFrame fuel 0 t = some (t2, some d) ∧
      t2.running = true ∧ t2.lastTime = 0 ∧ t2.delayComp ≤ 0 ∧
      t2.frames = t.frames ∧ t2.loopCount = t.loopCount ∧
      ((t.frameIndex + 1 < t.frames.length ∧ t2.frameIndex = t.frameIndex + 1 ∧
        t2.loops = t.loops) ∨
       (t.frames.length ≤ t.frameIndex + 1 ∧ t2.frameIndex = 0 ∧
        t2.loops = t.loops + 1)) := by
  cases fuel with
  | zero => exact absurd hfuel (by omega)
  | succ k =>
    unfold enqueueNextFrame
    by_cases hend : t.frames.length ≤ t.frameIndex + 1
    · have hwrap : ¬(t.loopCount ≠ 0 ∧ t.loopCount = t.loops) :=
        fun hc => hnostop ⟨hend, hc⟩
      rw [advanceFrame_wrap t hend hwrap]
      unfold enqueueLoop
      rw [if_pos (show ({ t with frameIndex := 0, loops := t.loops + 1 } :
        AnimState).running = true from hr)]
      dsimp only
      rw [hlt]
      rw [if_neg (by omega)]
      exact ⟨_, _, rfl, hr, rfl, by dsimp only; omega, rfl, rfl,
        Or.inr ⟨hend, rfl, rfl⟩⟩
    · have hlt1 : t.frameIndex + 1 < t.frames.length := by omega
      rw [advanceFrame_of_lt t hlt1]
      unfold enqueueLoop
      rw [if_pos (show ({ t with frameIndex := t.frameIndex + 1 } :
        AnimState).running = true from hr)]
      dsimp only
      rw [hlt]
      rw [if_neg (by omega)]
      exact ⟨_, _, rfl, hr, rfl, by dsimp only; omega, rfl, rfl,
        Or.inl ⟨hlt1, rfl, rfl⟩⟩

theorem nextFrameRender_frozen_stop (s : AnimState) (fuel : Nat)
    (hfuel : 1 ≤ fuel) (hr : s.running = true)
    (hend : s.frames.length ≤ s.frameIndex + 1)
    (hsc : s.loopCount ≠ 0 ∧ s.loopCount = s.loops) :
    ∃ s2 ops, nextFrameRender fuel 0 s = some (s2, ops, none) ∧
      drawCount ops = 1 ∧ s2.running = false := by
  have hstop := enqueueNextFrame_frozen_stop
    (onFrame s (s.frames.getD s.frameIndex default) s.frameIndex).1 fuel 0 hfuel
    (by simp only [onFrame_fst_frames, onFrame_fst_frameIndex]; exact hend)
    (by simp only [onFrame_fst_loopCount, onFrame_fst_loops]; exact hsc)
  have heq : nextFrameRender fuel 0 s =
      some (stop { (onFrame s (s.frames.getD s.frameIndex default) s.frameIndex).1 with
          frameIndex :=
            (onFrame s (s.frames.getD s.frameIndex default) s.frameIndex).1.frameIndex + 1 },
        (onFrame s (s.frames.getD s.frameIndex default) s.frameIndex).2, none) := by
    unfold nextFrameRender
    rw [if_pos hr]
    dsimp only
    rw [hstop]
  refine ⟨_, _, heq, ?_, ?_⟩
  · exact drawCount_onFrame s _ _
  · simp [stop]

theorem nextFrameRender_frozen_go (s : AnimState) (fuel : Nat)
    (hfuel : 1 ≤ fuel) (hr : s.running = true) (hlt : s.lastTime = 0)
    (hdc : s.delayComp ≤ 0)
    (hnostop : ¬(s.frames.length ≤ s.frameIndex + 1 ∧
      s.loopCount ≠ 0 ∧ s.loopCount = s.loops)) :
    ∃ s2 ops d, nextFrameRender fuel 0 s = some (s2, ops, some d) ∧
      drawCount ops = 1 ∧ s2.running = true ∧ s2.lastTime = 0 ∧
      s2.delayComp ≤ 0 ∧ s2.frames = s.frames ∧ s2.loopCount = s.loopCount ∧
      ((s.frameIndex + 1 < s.frames.length ∧ s2.frameIndex = s.frameIndex + 1 ∧
        s2.loops = s.loops) ∨
       (s.frames.length ≤ s.frameIndex + 1 ∧ s2.frameIndex = 0 ∧
        s2.loops = s.loops + 1)) := by
  obtain ⟨t2, d, heq, hr2, hlt2, hdc2, hf2, hlc2, hcase⟩ :=
    enqueueNextFrame_frozen_go
      (onFrame s (s.frames.getD s.frameIndex default) s.frameIndex).1 fuel hfuel
      (by simp only [onFrame_fst_running]; exact hr)
      (by simp only [onFrame_fst_lastTime]; exact hlt)
      (by simp only [onFrame_fst_delayComp]; exact hdc)
      (by simp only [onFrame_fst_frames, onFrame_fst_frameIndex,
        onFrame_fst_loopCount, onFrame_fst_loops]; exact hnostop)
  simp only [onFrame_fst_frames, onFrame_fst_frameIndex, onFrame_fst_loops,
    onFrame_fst_loopCount] at hf2 hlc2 hcase
  have heqn : nextFrameRender fuel 0 s =
      some (t2, (onFrame s (s.frames.getD s.frameIndex default) s.frameIndex).2,
        some d) := by
    unfold nextFrameRender
    rw [if_pos hr]
    dsimp only
    rw [heq]
  exact ⟨t2, _, d, heqn, drawCount_onFrame s _ _, hr2, hlt2, hdc2, hf2, hlc2, hcase⟩

end Animator

namespace Animator

theorem run_frozen_inf :
    ∀ (M : Nat) (s : AnimState),
      s.running = true → s.lastTime = 0 → s.delayComp ≤ 0 → s.loopCount = 0 →
      ∃ s2 ops, run 1 (List.replicate M 0) s = some (s2, ops) ∧
        drawCount ops = M ∧ s2.running = true ∧ s2.lastTime = 0 ∧
        s2.delayComp ≤ 0 ∧ s2.loopCount = 0 ∧ s2.frames = s.frames := by
  intro M
  induction M with
  | zero =>
    intro s h1 h2 h3 h4
    exact ⟨s, [], rfl, rfl, h1, h2, h3, h4, rfl⟩
  | succ k ih =>
    intro s h1 h2 h3 h4
    have hnostop : ¬(s.frames.length ≤ s.frameIndex + 1 ∧
        s.loopCount ≠ 0 ∧ s.loopCount = s.loops) := by
      rintro ⟨-, hne, -⟩
      exact hne h4
    obtain ⟨s2, ops, d, htick, hdraw, hr2, hlt2, hdc2, hf2, hlc2, -⟩ :=
      nextFrameRender_frozen_go s 1 (by omega) h1 h2 h3 hnostop
    obtain ⟨s3, ops3, hrun3, hd3, hr3, hlt3, hdc3, hlc3, hf3⟩ :=
      ih s2 hr2 hlt2 hdc2 (by rw [hlc2]; exact h4)
    refine ⟨s3, ops ++ ops3, ?_, ?_, hr3, hlt3, hdc3, hlc3, by rw [hf3, hf2]⟩
    · rw [List.replicate_succ]
      unfold run
      rw [htick]
      dsimp only
      rw [hrun3]
    · rw [drawCount_append, hdraw, hd3]
      omega

theorem run_frozen_fin :
    ∀ (M : Nat) (s : AnimState),
      s.running = true → s.lastTime = 0 → s.delayComp ≤ 0 →
      s.loopCount ≠ 0 → s.loops ≤ s.loopCount → s.frameIndex < s.frames.length →
      (remDraws s ≤ M →
        ∃ s2 ops, run 1 (List.replicate M 0) s = some (s2, ops) ∧
          drawCount ops = remDraws s ∧ s2.running = false) ∧
      (M < remDraws s →
        ∃ s2 ops, run 1 (List.replicate M 0) s = some (s2, ops) ∧
          drawCount ops = M ∧ s2.running = true) := by
  intro M
  induction M with
  | zero =>
    intro s h1 h2 h3 h4 h5 h6
    have hpos : 1 ≤ remDraws s := by
      unfold remDraws
      have h7 : 1 ≤ s.frames.length - s.frameIndex := by omega
      exact h7.trans (Nat.le_add_left _ _)
    constructor
    · intro hle
      exact absurd hle (by omega)
    · intro _
      exact ⟨s, [], rfl, rfl, h1⟩
  | succ k ih =>
    intro s h1 h2 h3 h4 h5 h6
    by_cases hstop : s.frames.length ≤ s.frameIndex + 1 ∧
        s.loopCount ≠ 0 ∧ s.loopCount = s.loops
    · have hrem : remDraws s = 1 := by
        unfold remDraws
        have h7 : s.loopCount - s.loops = 0 := by omega
        rw [h7, Nat.zero_mul]
        omega
      obtain ⟨s2, ops, htick, hdraw, hrun2⟩ :=
        nextFrameRender_frozen_stop s 1 (by omega) h1 hstop.1 hstop.2
      constructor
      · intro hle
        refine ⟨s2, ops, ?_, by omega, hrun2⟩
        rw [List.replicate_succ]
        unfold run
        rw [htick]
      · intro hltrem
        exact absurd hltrem (by omega)
    · obtain ⟨s2, ops, d, htick, hdraw, hr2, hlt2, hdc2, hf2, hlc2, hcase⟩ :=
        nextFrameRender_frozen_go s 1 (by omega) h1 h2 h3 hstop
      have hfacts : remDraws s2 + 1 = remDraws s ∧ s2.loops ≤ s2.loopCount ∧
          s2.frameIndex < s2.frames.length := by
        rcases hcase with ⟨hlt1, hfi2, hlp2⟩ | ⟨hend, hfi2, hlp2⟩
        · unfold remDraws
          rw [hf2, hlc2, hfi2, hlp2]
          exact ⟨by omega, h5, hlt1⟩
        · have hlplt : s.loops < s.loopCount := by
            rcases Nat.lt_or_ge s.loops s.loopCount with h | h
            · exact h
            · exact absurd ⟨hend, h4, by omega⟩ hstop
          have hmul : (s.loopCount - (s.loops + 1)) * s.frames.length +
              s.frames.length = (s.loopCount - s.loops) * s.frames.length := by
            have hq : s.loopCount - s.loops = (s.loopCount - (s.loops + 1)) + 1 := by
              omega
            conv_rhs => rw [hq]
            rw [Nat.add_mul, one_mul]
          unfold remDraws
          rw [hf2, hlc2, hfi2, hlp2]
          exact ⟨by omega, by omega, by omega⟩
      obtain ⟨hrem2, hlp2le, hfi2lt⟩ := hfacts
      obtain ⟨ihf, ihl⟩ := ih s2 hr2 hlt2 hdc2 (by rw [hlc2]; exact h4) hlp2le hfi2lt
      constructor
      · intro hle
        obtain ⟨s3, ops3, hrun3, hd3, hr3⟩ := ihf (by omega)
        refine ⟨s3, ops ++ ops3, ?_, ?_, hr3⟩
        · rw [List.replicate_succ]
          unfold run
          rw [htick]
          dsimp only
          rw [hrun3]
        · rw [drawCount_append, hdraw, hd3]
          omega
      · intro hlt1
        obtain ⟨s3, ops3, hrun3, hd3, hr3⟩ := ihl (by omega)
        refine ⟨s3, ops ++ ops3, ?_, ?_, hr3⟩
        · rw [List.replicate_succ]
          unfold run
          rw [htick]
          dsimp only
          rw [hrun3]
        · rw [drawCount_append, hdraw, hd3]
          omega

end Animator

/-- C1: starting a FrameSet with `N >= 1` frames under a clock that skips no
frame (all ticks fire at the start time, so the compensation never goes
positive): with finite loop count `k >= 1`, any sufficiently long tick
sequence fires exactly `(k + 1) * N` draw calls and ends with `running =
false` (further ticks never fire — the engine schedules none); with loop
count 0 the engine draws once per tick forever and never sets `running` to
false on its own. -/
theorem c1_loop_termination (r : GifReader) (frames : List Frame) (M : Nat)
    (hN : 1 ≤ frames.length) :
    (1 ≤ r.loopCount → (r.loopCount + 1) * frames.length ≤ M →
      ∃ sf ops,
        run 1 (List.replicate M 0) (Animator.start 0 (Animator.mkAnimator r frames)).1 =
          some (sf, ops) ∧
        drawCount ops = (r.loopCount + 1) * frames.length ∧ sf.running = false) ∧
    (r.loopCount = 0 →
      ∃ sf ops,
        run 1 (List.replicate M 0) (Animator.start 0 (Animator.mkAnimator r frames)).1 =
          some (sf, ops) ∧
        drawCount ops = M ∧ sf.running = true) := by
  constructor
  · intro hk hM
    have hrem : remDraws (Animator.start 0 (Animator.mkAnimator r frames)).1 =
        (r.loopCount + 1) * frames.length := by
      unfold remDraws
      dsimp only [Animator.start, Animator.mkAnimator]
      rw [Nat.sub_zero, Nat.sub_zero]
      conv_rhs => rw [Nat.add_mul, one_mul]
    obtain ⟨hfin, -⟩ := run_frozen_fin M (Animator.start 0 (Animator.mkAnimator r frames)).1
      rfl rfl (le_refl 0)
      (by dsimp only [Animator.start, Animator.mkAnimator]; omega)
      (Nat.zero_le _)
      (by dsimp only [Animator.start, Animator.mkAnimator]; omega)
    obtain ⟨sf, ops, hrun, hd, hrf⟩ := hfin (by rw [hrem]; exact hM)
    exact ⟨sf, ops, hrun, by rw [hd, hrem], hrf⟩
  · intro h0
    obtain ⟨sf, ops, hrun, hd, hrs, -, -, -, -⟩ :=
      run_frozen_inf M (Animator.start 0 (Animator.mkAnimator r frames)).1
        rfl rfl (le_refl 0)
        (by dsimp only [Animator.start, Animator.mkAnimator]; exact h0)
    exact ⟨sf, ops, hrun, hd, hrs⟩

/-- C1 witness: a 1-frame gif with loop count 1 draws exactly 2 frames and
stops. -/
theorem c1_loop_termination_witness :
    1 ≤ ([mkFrame 1 0] : List Frame).length ∧
    ((1 ≤ (mkReader 1 []).loopCount →
        ((mkReader 1 []).loopCount + 1) * ([mkFrame 1 0] : List Frame).length ≤ 2 →
        ∃ sf ops,
          run 1 (List.replicate 2 0)
              (Animator.start 0 (Animator.mkAnimator (mkReader 1 []) [mkFrame 1 0])).1 =
            some (sf, ops) ∧
          drawCount ops =
            ((mkReader 1 []).loopCount + 1) * ([mkFrame 1 0] : List Frame).length ∧
          sf.running = false) ∧
     ((mkReader 1 []).loopCount = 0 →
        ∃ sf ops,
          run 1 (List.replicate 2 0)
              (Animator.start 0 (Animator.mkAnimator (mkReader 1 []) [mkFrame 1 0])).1 =
            some (sf, ops) ∧
          drawCount ops = 2 ∧ sf.running = true)) :=
  ⟨by decide, c1_loop_termination (mkReader 1 []) [mkFrame 1 0] 2 (by decide)⟩
